import Mathlib

/-!
Verification of the `simple_font_rendering_py` renderer backends
(`harfbuzzpy.py`, `coretextpy.py`, `base.py`, `constants.py`).

The Python code is shallowly embedded:
* numpy `uint8` samples are `ℕ` (proved bounded by 255 where relevant);
* numpy `float32` arithmetic is embedded exactly: each operation rounds its
  exact rational result to 24 bits of significand with round-to-nearest,
  ties-to-even (`f32Round`), which is the IEEE-754 single-precision
  semantics used by numpy for the value ranges appearing in the code
  (all intermediate values are normal, no overflow and no subnormals);
* Python `float` (double) pen arithmetic is embedded with exact rationals;
  the claims settled here do not depend on sub-ulp double rounding;
* Python dictionaries are association lists, `dict.get(k, d)` is a `find?`
  with a default;
* fallible native calls (FreeType glyph loading, HarfBuzz `set_variations`,
  CoreText font creation) are oracle parameters: a loader function returning
  `Except`, or a `Bool` saying whether the guarded call raised.
-/

namespace Typf

/-- Round a rational to the nearest integer, ties to even
(the IEEE-754 default rounding used by numpy float32 operations,
and also the semantics of Python 3 `round`). -/
def rne (x : ℚ) : ℤ :=
  if x - ⌊x⌋ < 1/2 then ⌊x⌋
  else if 1/2 < x - ⌊x⌋ then ⌊x⌋ + 1
  else if ⌊x⌋ % 2 = 0 then ⌊x⌋ else ⌊x⌋ + 1

/-- Fuelled base-2 floor-logarithm on rationals: for `1 ≤ q < 2^fuel` it
returns the largest `e` with `2^e ≤ q`. -/
def log2FQ : ℕ → ℚ → ℕ
  | 0, _ => 0
  | fuel+1, q => if q < 2 then 0 else log2FQ fuel (q / 2) + 1

/-- Fuelled base-2 ceiling-logarithm on rationals: for `1 < q ≤ 2^fuel` it
returns the smallest `k` with `q ≤ 2^k`. -/
def clog2FQ : ℕ → ℚ → ℕ
  | 0, _ => 0
  | fuel+1, q => if q ≤ 1 then 0 else clog2FQ fuel (q / 2) + 1

/-- Binade exponent of a positive rational: the unique `E` with
`2^E ≤ q < 2^(E+1)` (valid for `2^(-62) < q < 2^62`, which covers every
value arising in the embedded pixel pipeline). -/
def findE (q : ℚ) : ℤ :=
  if 1 ≤ q then (log2FQ 64 q : ℤ) else -(clog2FQ 64 (1 / q) : ℤ)

/-- Exact model of rounding a real (rational) value to IEEE-754 single
precision (binary32, round-to-nearest-even), for values in the normal
range.  Nonpositive inputs are mapped to zero: in the embedded pipeline
the only nonpositive intermediate value is exactly `0`. -/
def f32Round (q : ℚ) : ℚ :=
  if q ≤ 0 then 0
  else (rne (q * 2 ^ (23 - findE q)) : ℚ) * 2 ^ (findE q - 23)

/-- Python `int(x)` on a float/rational: truncation toward zero. -/
def pythonInt (q : ℚ) : ℤ :=
  if q < 0 then -⌊-q⌋ else ⌊q⌋

/-- `ctypes` conversion of an arbitrary-precision Python integer to a
64-bit signed `c_long` (two's-complement wrap-around), as performed by
`FT_Fixed(...)`. -/
def toCLong (x : ℤ) : ℤ :=
  (x + 2 ^ 63) % 2 ^ 64 - 2 ^ 63

/-! ### Shared constants (`constants.py`) -/

/-- `RENDER_WIDTH = 3000`. -/
def RENDER_WIDTH : ℕ := 3000

/-- `RENDER_HEIGHT = 1200`. -/
def RENDER_HEIGHT : ℕ := 1200

/-- `DEFAULT_FONT_SIZE = 100`. -/
def DEFAULT_FONT_SIZE : ℕ := 100

/-- `RENDER_BASELINE_RATIO = 0.75` (the baseline-position fraction constant;
named with `FRAC` here). -/
def RENDER_BASELINE_FRAC : ℚ := 3 / 4

/-! ### Canvas and glyph bitmaps (`harfbuzzpy.py`) -/

/-- A grayscale image: the `np.ndarray` of shape `(height, width)`,
`dtype=uint8`.  `pix r c` is the sample at row `r`, column `c`
(row 0 is the top row). -/
structure Canvas where
  height : ℕ
  width : ℕ
  pix : ℕ → ℕ → ℕ

/-- The blank canvas `np.ones((height, width), dtype=np.uint8) * 255`. -/
def blankCanvas (height width : ℕ) : Canvas :=
  ⟨height, width, fun _ _ => 255⟩

/-- A FreeType glyph bitmap as used by `render_text`: `bitmap.rows`,
`bitmap.width`, the row-major `bitmap.buffer`, and the glyph-slot metrics
`bitmap_left` / `bitmap_top`.  Samples are `uint8` values, recorded by the
two well-formedness facts. -/
structure GlyphBitmap where
  rows : ℕ
  width : ℕ
  buffer : List ℕ
  bitmap_left : ℤ
  bitmap_top : ℤ
  buffer_len : buffer.length = rows * width
  buffer_byte : ∀ v ∈ buffer, v ≤ 255

/-- Sample of the reshaped glyph array
`np.array(bitmap.buffer, dtype=np.uint8).reshape(bitmap.rows, bitmap.width)`
at row `r`, column `c`. -/
def gsample (g : GlyphBitmap) (r c : ℕ) : ℕ :=
  g.buffer.getD (r * g.width + c) 0

/-- `glyph_region = glyph[...].astype(np.float32) / 255.0`: the float32
coverage value of one glyph sample (`255.0` and the sample are exactly
representable; the division is one correctly rounded float32 operation). -/
def covQ (g : ℕ) : ℚ :=
  f32Round ((g : ℚ) / 255)

/-- One pixel of `(img_slice * (1 - glyph_region)).astype(np.uint8)`:
`1 - coverage` and the product are float32 operations, and the `uint8`
cast truncates toward zero.  `e` is the existing canvas sample (exactly
representable in float32 since `e ≤ 255`), `g` the glyph sample. -/
def blendPix (e g : ℕ) : ℕ :=
  (⌊f32Round ((e : ℚ) * f32Round (1 - covQ g))⌋).toNat

/-- The `np.all(glyph_region == 0)` test of `_composite_glyph`, over the
clipped glyph region determined by destination position `(x, y)` and the
clip bounds `x1, y1, x2, y2`. -/
def regionAllZero (g : GlyphBitmap) (x y x1 y1 x2 y2 : ℤ) : Bool :=
  (List.range (y2 - y1).toNat).all fun i =>
    (List.range (x2 - x1).toNat).all fun j =>
      gsample g ((y1 - y).toNat + i) ((x1 - x).toNat + j) == 0

/-- `HarfBuzzRenderer._composite_glyph(img, glyph, x, y)`: clip the glyph
rectangle against the canvas, return the canvas unchanged if the
intersection is empty or the clipped coverage is all zero, otherwise
alpha-blend every pixel of the intersection. -/
def composite_glyph (img : Canvas) (glyph : GlyphBitmap) (x y : ℤ) : Canvas :=
  if min (img.width : ℤ) (x + glyph.width) ≤ max 0 x ∨
      min (img.height : ℤ) (y + glyph.rows) ≤ max 0 y then img
  else if regionAllZero glyph x y (max 0 x) (max 0 y)
      (min (img.width : ℤ) (x + glyph.width))
      (min (img.height : ℤ) (y + glyph.rows)) then img
  else
    { img with
      pix := fun r c =>
        if max 0 y ≤ (r : ℤ) ∧ (r : ℤ) < min (img.height : ℤ) (y + glyph.rows) ∧
            max 0 x ≤ (c : ℤ) ∧ (c : ℤ) < min (img.width : ℤ) (x + glyph.width) then
          blendPix (img.pix r c) (gsample glyph ((r : ℤ) - y).toNat ((c : ℤ) - x).toNat)
        else img.pix r c }

/-! ### The shape-and-rasterize backend (`HarfBuzzRenderer`) -/

/-- One entry of the zipped `buf.glyph_infos` / `buf.glyph_positions`
sequence produced by `hb.shape`. -/
structure ShapedGlyph where
  codepoint : ℕ
  x_advance : ℤ
  y_advance : ℤ
  x_offset : ℤ
  y_offset : ℤ

/-- Renderer exceptions.  `rendererInitError` and
`rendererUnavailableError` are the classes defined in `base.py`.
`glyphLoadError` is *modelled from the spec*: the spec's error taxonomy
names a distinct `GlyphLoadError` class for rasterizer failures during
the shape-and-rasterize path, but no such class exists anywhere in the
source tree. -/
inductive RendererError where
  | rendererInitError : String → RendererError
  | rendererUnavailableError : String → RendererError
  | glyphLoadError : String → RendererError
deriving DecidableEq

/-- Discriminator: is this render outcome a raised `GlyphLoadError`? -/
def isGlyphLoadError : Except RendererError Canvas → Bool
  | .error (.glyphLoadError _) => true
  | _ => false

/-- Discriminator: is this render outcome a raised `RendererInitError`? -/
def isInitError : Except RendererError Canvas → Bool
  | .error (.rendererInitError _) => true
  | _ => false

/-- The mutable attributes of a `HarfBuzzRenderer` instance that the
embedded operations read or write: the `BaseRenderer` configuration
fields, the font's `upem`, and the states of the two native handles
(the variations applied to `hb_font`, and the design coordinates applied
to `ft_face`). -/
structure HBState where
  width : ℕ
  height : ℕ
  font_size : ℕ
  tracking : ℚ
  instance_coords : List (String × ℚ)
  features : List (String × ℤ)
  upem : ℕ
  hb_variations : List (String × ℚ)
  ft_design_coords : Option (List ℤ)

/-- A rasterizer for the current `ft_face` state: `ft_face.load_glyph`
followed by reading `ft_face.glyph.bitmap`, as a function from the glyph
id to either an exception message or the rendered bitmap. -/
def FTLoader : Type := ℕ → Except String GlyphBitmap

/-- A shaper for the current `hb_font` state: `hb.shape` on a fresh
buffer holding `text`, with the renderer's feature list; returns the
zipped infos/positions, or `none` when HarfBuzz reports no positions
(`positions is None`, the empty-input case). -/
def Shaper : Type := String → List (String × ℤ) → Option (List ShapedGlyph)

/-- One iteration of the glyph loop of `render_text`: load and rasterize
the glyph, advance the pen past an empty bitmap (the `continue` branch,
which skips the tracking addition), otherwise composite at the rounded
pen-relative position, advance by the scaled `x_advance`, and add
`tracking_px` if it is nonzero.  The accumulator is `(img, pen_x)`. -/
def renderStep (ftFace : FTLoader) (pen_y scale tracking_px : ℚ)
    (acc : Canvas × ℚ) (g : ShapedGlyph) : Except RendererError (Canvas × ℚ) :=
  match ftFace g.codepoint with
  | .error exc =>
      .error (.rendererInitError
        ("Failed to load glyph " ++ toString g.codepoint ++ ": " ++ exc))
  | .ok bitmap =>
      if bitmap.buffer = [] ∨ bitmap.width = 0 ∨ bitmap.rows = 0 then
        .ok (acc.1, acc.2 + g.x_advance * scale)
      else
        .ok (composite_glyph acc.1 bitmap
            (rne (acc.2 + g.x_offset * scale + bitmap.bitmap_left))
            (rne (pen_y - bitmap.bitmap_top - g.y_offset * scale)),
          if tracking_px ≠ 0 then acc.2 + g.x_advance * scale + tracking_px
          else acc.2 + g.x_advance * scale)

/-- The glyph loop of `render_text` over the shaped sequence, starting
from the blank canvas and `pen_x = 10.0`, returning the final canvas and
pen position. -/
def render_loop (st : HBState) (ftFace : FTLoader) (glyphs : List ShapedGlyph) :
    Except RendererError (Canvas × ℚ) :=
  glyphs.foldlM
    (renderStep ftFace ((st.height : ℚ) * RENDER_BASELINE_FRAC)
      ((st.font_size : ℚ) / st.upem) (st.tracking / 1000 * st.font_size))
    (blankCanvas st.height st.width, 10)

/-- `HarfBuzzRenderer.render_text(text)`: shape, return the blank canvas
when the text is empty or HarfBuzz returned no positions, otherwise run
the glyph loop and return the resulting canvas. -/
def render_text (st : HBState) (ftFace : FTLoader) (shaper : Shaper)
    (text : String) : Except RendererError Canvas :=
  match shaper text st.features with
  | none => .ok (blankCanvas st.height st.width)
  | some glyphs =>
      if text = "" then .ok (blankCanvas st.height st.width)
      else (render_loop st ftFace glyphs).map Prod.fst

/-- `render_text` as a state transformer: the method body assigns no
attribute of `self`, so the renderer state passes through unchanged. -/
def render_textS (st : HBState) (ftFace : FTLoader) (shaper : Shaper)
    (text : String) : Except RendererError Canvas × HBState :=
  (render_text st ftFace shaper text, st)

/-! ### FreeType variation submission (`_apply_variations_to_freetype`) -/

/-- One axis of `ft_face.get_variation_info().axes`. -/
structure VarAxis where
  tag : String
  default : ℚ

/-- `self.instance_coords.get(axis.tag, axis.default)`. -/
def lookupCoord (coords : List (String × ℚ)) (tag : String) (d : ℚ) : ℚ :=
  match coords.find? (fun p => p.1 == tag) with
  | some p => p.2
  | none => d

/-- `HarfBuzzRenderer._apply_variations_to_freetype`: walk the axes in
the font's own order, take the caller's coordinate for the axis tag if
present else the axis default, convert each with
`FT_Fixed(int(user_coord) << 16)`, and submit the whole array in a
single `FT_Set_Var_Design_Coordinates` call.  `none` means the function
returned without calling FreeType (no variation info / no axes);
`some arr` is the one submitted array. -/
def apply_variations_to_freetype (axes : List VarAxis)
    (coords : List (String × ℚ)) : Option (List ℤ) :=
  if axes.isEmpty then none
  else
    let arr := axes.map fun a =>
      toCLong (pythonInt (lookupCoord coords a.tag a.default) * 2 ^ 16)
    if arr.isEmpty then none else some arr

/-- `HarfBuzzRenderer.update_instance_coords`: reassign
`self.instance_coords`, then try `hb_font.set_variations` (keeping the
previous HarfBuzz variations if it raises) and then
`_apply_variations_to_freetype` (keeping the previous FreeType design
coordinates if it raises).  The two `Bool` oracles tell whether the
respective guarded native call raised. -/
def update_instance_coords_hb (st : HBState)
    (newCoords : Option (List (String × ℚ))) (axes : List VarAxis)
    (setVariationsRaises ftApplyRaises : Bool) : HBState :=
  let coords := newCoords.getD []
  let st1 := { st with instance_coords := coords }
  let st2 :=
    if setVariationsRaises then st1 else { st1 with hb_variations := coords }
  if ftApplyRaises then st2
  else
    match apply_variations_to_freetype axes coords with
    | none => st2
    | some arr => { st2 with ft_design_coords := some arr }

/-! ### The native-layout backend (`CoreTextRenderer`) -/

/-- The static `axis_ids` table of `CoreTextRenderer._create_font`,
with tags spelled as their UTF-8/ASCII byte sequences. -/
def axis_ids : List (List ℕ × ℕ) :=
  [([119, 103, 104, 116], 2003265652),   -- wght
   ([119, 100, 116, 104], 2003072104),   -- wdth
   ([115, 108, 110, 116], 1936486004),   -- slnt
   ([105, 116, 97, 108], 1769234796),    -- ital
   ([111, 112, 115, 122], 1869640570)]   -- opsz

/-- `struct.unpack("!I", tag.encode("utf-8")[:4].ljust(4, b" "))[0]`:
truncate the byte sequence to 4 bytes, pad with ASCII spaces to length
4, and read the result as one 32-bit big-endian unsigned integer. -/
def packBE4 (bytes : List ℕ) : ℕ :=
  let p := bytes.take 4 ++ List.replicate (4 - (bytes.take 4).length) 32
  p.foldl (fun acc b => acc * 256 + b) 0

/-- The integer key under which `_create_font` stores a variation
coordinate in the native variation dictionary: the static table value
for a known tag, else the big-endian packing of the tag's bytes.  (For
the 4-character ASCII tags in scope the `struct.error` /
`UnicodeEncodeError` fallback to a byte-string key is unreachable.) -/
def variation_axis_key (tag : List ℕ) : ℕ :=
  match axis_ids.find? (fun p => p.1 == tag) with
  | some p => p.2
  | none => packBE4 tag

/-- The parameters from which the current `CTFont` handle of a
`CoreTextRenderer` was derived: point size, the integer-keyed variation
dictionary, and the feature records. -/
structure CTFontCfg where
  size : ℕ
  variations : List (ℕ × ℚ)
  feature_settings : List (ℤ × ℤ)
deriving DecidableEq

/-- `CoreTextRenderer._create_font` (the handle-defining data): a font
handle at the given size, carrying the variation dictionary keyed by
`variation_axis_key` and the feature type/selector records. -/
def create_font_ct (font_size : ℕ) (coords : List (List ℕ × ℚ))
    (features : List (ℤ × ℤ)) : CTFontCfg :=
  ⟨font_size, coords.map (fun p => (variation_axis_key p.1, p.2)), features⟩

/-- The mutable attributes of a `CoreTextRenderer` instance used by the
embedded operations. -/
structure CTState where
  width : ℕ
  height : ℕ
  font_size : ℕ
  tracking : ℚ
  instance_coords : List (List ℕ × ℚ)
  features : List (ℤ × ℤ)
  font : CTFontCfg

/-- `CoreTextRenderer.update_instance_coords`: reassign
`self.instance_coords`, then try to rebuild the `CTFont` (keeping the
previous font handle if `_create_font` raises).  The `Bool` oracle tells
whether the guarded rebuild raised. -/
def update_instance_coords_ct (st : CTState)
    (newCoords : Option (List (List ℕ × ℚ))) (createFontRaises : Bool) :
    CTState :=
  let coords := newCoords.getD []
  let st1 := { st with instance_coords := coords }
  if createFontRaises then st1
  else { st1 with font := create_font_ct st.font_size coords st.features }

/-- The text position of the native backend's `render_text`:
`CGContextSetTextPosition(context, 10, int(height * (1.0 - RENDER_BASELINE_RATIO)))`,
in the native bottom-left-origin coordinate space (no CTM flip is
applied). -/
def ct_text_position (height : ℕ) : ℤ × ℤ :=
  (10, pythonInt ((height : ℚ) * (1 - RENDER_BASELINE_FRAC)))

/-- The initial pen position of the shape-and-rasterize backend's
`render_text`: `pen_x = 10.0`, `pen_y = self.height * RENDER_BASELINE_RATIO`,
in the canvas top-down coordinate space. -/
def hb_pen_start (height : ℕ) : ℚ × ℚ :=
  (10, (height : ℚ) * RENDER_BASELINE_FRAC)

/-! ### Concrete fixtures for counterexamples and witnesses -/

/-- A 1×1 canvas whose single sample is 3. -/
def canvas3 : Canvas := ⟨1, 1, fun _ _ => 3⟩

/-- A 1×1 glyph bitmap whose single sample is 85 (coverage 1/3). -/
def glyph85 : GlyphBitmap :=
  ⟨1, 1, [85], 0, 0, rfl, by decide⟩

/-- A glyph bitmap with zero width and height and an empty buffer:
what FreeType produces for a whitespace glyph. -/
def glyphEmpty : GlyphBitmap :=
  ⟨0, 0, [], 0, 0, rfl, by decide⟩

/-- A rasterizer that renders every glyph as the empty bitmap. -/
def ftLoaderEmpty : FTLoader := fun _ => .ok glyphEmpty

/-- A rasterizer that fails on every glyph with message "boom". -/
def ftLoaderFail : FTLoader := fun _ => .error "boom"

/-- A rasterizer that renders every glyph as `glyph85`. -/
def ftLoader85 : FTLoader := fun _ => .ok glyph85

/-- A shaper that shapes every text to a single glyph (id 7, `x_advance`
500 font units, no offsets). -/
def shaperOne : Shaper := fun _ _ => some [⟨7, 500, 0, 0, 0⟩]

/-- A `HarfBuzzRenderer` state: default canvas and size, `upem = 1000`,
tracking 1000/1000 em, no variations or features. -/
def hbStateTrk : HBState :=
  ⟨3000, 1200, 100, 1000, [], [], 1000, [], none⟩

/-- A `HarfBuzzRenderer` state with weight 400 applied to both native
handles. -/
def hbState400 : HBState :=
  ⟨3000, 1200, 100, 0, [("wght", 400)], [], 1000, [("wght", 400)],
   some [400 * 2 ^ 16]⟩

/-- A `CoreTextRenderer` state with weight 400 applied to the current
font handle. -/
def ctState400 : CTState :=
  ⟨3000, 1200, 100, 0, [([119, 103, 104, 116], 400)], [],
   ⟨100, [(2003265652, 400)], []⟩⟩

/-! ### Properties of round-to-nearest-even -/

theorem rne_ge_floor (x : ℚ) : ⌊x⌋ ≤ rne x := by
  unfold rne
  split_ifs <;> omega

theorem rne_ge (x : ℚ) : x - 1/2 ≤ (rne x : ℚ) := by
  unfold rne
  have h1 := Int.floor_le x
  have h2 := Int.lt_floor_add_one x
  split_ifs with hf hg hp <;> push_cast <;> linarith

theorem rne_le (x : ℚ) : (rne x : ℚ) ≤ x + 1/2 := by
  unfold rne
  have h1 := Int.floor_le x
  have h2 := Int.lt_floor_add_one x
  split_ifs with hf hg hp <;> push_cast <;> linarith

theorem rne_intCast (n : ℤ) : rne (n : ℚ) = n := by
  unfold rne
  rw [Int.floor_intCast]
  norm_num

theorem rne_eq_low (x : ℚ) (n : ℤ) (h1 : (n : ℚ) ≤ x) (h2 : x < n + 1/2) :
    rne x = n := by
  have hfl : ⌊x⌋ = n := by
    rw [Int.floor_eq_iff]
    exact ⟨h1, by push_cast; linarith⟩
  unfold rne
  rw [hfl, if_pos (show x - (n : ℚ) < 1/2 by linarith)]

theorem rne_eq_high (x : ℚ) (n : ℤ) (h1 : (n : ℚ) + 1/2 < x) (h2 : x < n + 1) :
    rne x = n + 1 := by
  have hfl : ⌊x⌋ = n := by
    rw [Int.floor_eq_iff]
    exact ⟨by linarith, by push_cast; linarith⟩
  unfold rne
  rw [hfl, if_neg (show ¬(x - (n : ℚ) < 1/2) by push_cast; linarith),
    if_pos (show (1:ℚ)/2 < x - (n : ℚ) by push_cast; linarith)]

theorem rne_eq_tie (x : ℚ) (n : ℤ) (h : x = (n : ℚ) + 1/2) (he : n % 2 = 0) :
    rne x = n := by
  have hfl : ⌊x⌋ = n := by
    rw [Int.floor_eq_iff]
    refine ⟨by rw [h]; linarith, by rw [h]; push_cast; linarith⟩
  unfold rne
  rw [hfl, if_neg (show ¬(x - (n : ℚ) < 1/2) by rw [h]; push_cast; linarith),
    if_neg (show ¬((1:ℚ)/2 < x - (n : ℚ)) by rw [h]; push_cast; linarith),
    if_pos he]

/-! ### Properties of the fuelled logarithms and the binade exponent -/

theorem log2FQ_spec (fuel : ℕ) :
    ∀ q : ℚ, 1 ≤ q → q < 2 ^ fuel →
      (2:ℚ) ^ log2FQ fuel q ≤ q ∧ q < 2 ^ (log2FQ fuel q + 1) := by
  induction fuel with
  | zero =>
      intro q h1 h2
      norm_num at h2
      linarith
  | succ n ih =>
      intro q h1 h2
      rw [log2FQ]
      split_ifs with hq
      · refine ⟨by simpa using h1, by simpa using hq⟩
      · push_neg at hq
        have h1' : 1 ≤ q / 2 := by linarith
        have h2' : q / 2 < 2 ^ n := by
          rw [pow_succ] at h2; linarith
        obtain ⟨ha, hb⟩ := ih (q / 2) h1' h2'
        constructor
        · rw [pow_succ]; linarith
        · rw [pow_succ]; linarith

theorem clog2FQ_of_le_one (fuel : ℕ) (q : ℚ) (h : q ≤ 1) :
    clog2FQ fuel q = 0 := by
  cases fuel <;> simp [clog2FQ, h]

theorem clog2FQ_spec (fuel : ℕ) :
    ∀ q : ℚ, 1 < q → q ≤ 2 ^ fuel →
      q ≤ (2:ℚ) ^ clog2FQ fuel q ∧ 1 ≤ clog2FQ fuel q ∧
        ∀ m, clog2FQ fuel q = m + 1 → (2:ℚ) ^ m < q := by
  induction fuel with
  | zero =>
      intro q h1 h2
      norm_num at h2
      linarith
  | succ n ih =>
      intro q h1 h2
      rw [clog2FQ]
      have hq : ¬(q ≤ 1) := by linarith
      rw [if_neg hq]
      by_cases hhalf : q / 2 ≤ 1
      · rw [clog2FQ_of_le_one n _ hhalf]
        refine ⟨by norm_num; linarith, by norm_num, ?_⟩
        intro m hm
        have : m = 0 := by omega
        subst this
        simpa using h1
      · push_neg at hhalf
        have h2' : q / 2 ≤ 2 ^ n := by
          rw [pow_succ] at h2; linarith
        obtain ⟨ha, hk, hb⟩ := ih (q / 2) hhalf h2'
        refine ⟨by rw [pow_succ]; linarith, by omega, ?_⟩
        intro m hm
        obtain ⟨m', rfl⟩ : ∃ m', m = m' + 1 := ⟨clog2FQ n (q / 2) - 1, by omega⟩
        have hmm : clog2FQ n (q / 2) = m' + 1 := by omega
        have := hb m' hmm
        rw [pow_succ]
        linarith

theorem findE_spec (q : ℚ) (h0 : 0 < q)
    (hlo : (2:ℚ) ^ (-62 : ℤ) < q) (hhi : q < (2:ℚ) ^ (62 : ℤ)) :
    (2:ℚ) ^ findE q ≤ q ∧ q < (2:ℚ) ^ (findE q + 1) := by
  unfold findE
  split_ifs with h1
  · have hlt : q < 2 ^ 64 := by
      have : ((2:ℚ) ^ (62:ℤ)) ≤ 2 ^ (64:ℕ) := by norm_num
      linarith
    obtain ⟨ha, hb⟩ := log2FQ_spec 64 q h1 hlt
    constructor
    · rw [zpow_natCast]; exact ha
    · have : ((log2FQ 64 q : ℤ) + 1) = ((log2FQ 64 q + 1 : ℕ) : ℤ) := by push_cast; ring
      rw [this, zpow_natCast]; exact hb
  · push_neg at h1
    have hp62 : (0:ℚ) < 2 ^ (62:ℕ) := by positivity
    have ht1 : 1 < 1 / q := by
      rw [lt_div_iff h0]; linarith
    have ht2 : 1 / q ≤ 2 ^ 64 := by
      have hx : (2:ℚ) ^ (-62 : ℤ) = ((2 ^ (62:ℕ) : ℚ))⁻¹ := by
        rw [zpow_neg]; norm_num
      rw [hx] at hlo
      have hcancel : (2:ℚ) ^ (62:ℕ) * ((2 ^ (62:ℕ) : ℚ))⁻¹ = 1 :=
        mul_inv_cancel₀ (by positivity)
      have hmul := mul_lt_mul_of_pos_left hlo hp62
      have : 1 / q < 2 ^ (62:ℕ) := by
        rw [div_lt_iff h0]
        linarith [mul_comm q ((2:ℚ) ^ (62:ℕ))]
      have h2 : ((2:ℚ) ^ (62:ℕ)) ≤ 2 ^ (64:ℕ) := by norm_num
      linarith
    obtain ⟨ha, hk, hb⟩ := clog2FQ_spec 64 (1 / q) ht1 ht2
    obtain ⟨m, hm⟩ : ∃ m, clog2FQ 64 (1 / q) = m + 1 :=
      ⟨clog2FQ 64 (1 / q) - 1, by omega⟩
    have hbm := hb m hm
    rw [hm] at ha ⊢
    have hp2 : (0:ℚ) < 2 ^ (m + 1) := by positivity
    have hpm : (0:ℚ) < 2 ^ m := by positivity
    constructor
    · have hz : (2:ℚ) ^ (-((m + 1 : ℕ) : ℤ)) = ((2 ^ (m + 1 : ℕ) : ℚ))⁻¹ := by
        rw [zpow_neg, zpow_natCast]
      rw [hz]
      rw [div_le_iff h0] at ha
      have hlt1 : 1 ≤ q * 2 ^ (m + 1 : ℕ) := by
        linarith [mul_comm ((2:ℚ) ^ (m + 1 : ℕ)) q]
      calc ((2 ^ (m + 1 : ℕ) : ℚ))⁻¹ = 1 * ((2 ^ (m + 1 : ℕ) : ℚ))⁻¹ := (one_mul _).symm
        _ ≤ q * 2 ^ (m + 1 : ℕ) * ((2 ^ (m + 1 : ℕ) : ℚ))⁻¹ :=
            mul_le_mul_of_nonneg_right hlt1 (by positivity)
        _ = q := by field_simp
    · have hz : (-((m + 1 : ℕ) : ℤ) + 1) = -(m : ℤ) := by push_cast; ring
      rw [hz]
      have hz2 : (2:ℚ) ^ (-(m : ℤ)) = ((2 ^ (m : ℕ) : ℚ))⁻¹ := by
        rw [zpow_neg, zpow_natCast]
      rw [hz2]
      rw [lt_div_iff h0] at hbm
      have hlt1 : q * 2 ^ (m : ℕ) < 1 := by linarith [mul_comm ((2:ℚ) ^ (m : ℕ)) q]
      calc q = q * 2 ^ (m : ℕ) * ((2 ^ (m : ℕ) : ℚ))⁻¹ := by field_simp
        _ < 1 * ((2 ^ (m : ℕ) : ℚ))⁻¹ := mul_lt_mul_of_pos_right hlt1 (by positivity)
        _ = ((2 ^ (m : ℕ) : ℚ))⁻¹ := one_mul _

theorem findE_eq (q : ℚ) (E : ℤ) (h0 : 0 < q)
    (hlo : (2:ℚ) ^ (-62 : ℤ) < q) (hhi : q < (2:ℚ) ^ (62 : ℤ))
    (hE1 : (2:ℚ) ^ E ≤ q) (hE2 : q < (2:ℚ) ^ (E + 1)) : findE q = E := by
  obtain ⟨hA, hB⟩ := findE_spec q h0 hlo hhi
  have l1 : findE q < E + 1 :=
    (zpow_lt_zpow_iff_right₀ one_lt_two).mp (lt_of_le_of_lt hA hE2)
  have l2 : E < findE q + 1 :=
    (zpow_lt_zpow_iff_right₀ one_lt_two).mp (lt_of_le_of_lt hE1 hB)
  omega

/-! ### Properties of the float32 rounding model -/

theorem f32Round_of_nonpos (q : ℚ) (h : q ≤ 0) : f32Round q = 0 := by
  simp [f32Round, h]

theorem f32Round_nonneg (q : ℚ) : 0 ≤ f32Round q := by
  unfold f32Round
  split_ifs with h
  · exact le_refl 0
  · push_neg at h
    have hs : (0:ℚ) < q * 2 ^ (23 - findE q) := by positivity
    have hfl : (0:ℤ) ≤ ⌊q * 2 ^ (23 - findE q)⌋ := by
      rw [Int.le_floor]; push_cast; linarith
    have hr := rne_ge_floor (q * 2 ^ (23 - findE q))
    have : (0:ℚ) ≤ (rne (q * 2 ^ (23 - findE q)) : ℚ) := by
      push_cast
      exact_mod_cast le_trans hfl hr
    positivity

theorem f32Round_err (q : ℚ) (h0 : 0 < q)
    (hlo : (2:ℚ) ^ (-62 : ℤ) < q) (hhi : q < (2:ℚ) ^ (62 : ℤ)) :
    q - q / 2 ^ (24:ℕ) ≤ f32Round q ∧ f32Round q ≤ q + q / 2 ^ (24:ℕ) := by
  obtain ⟨hA, hB⟩ := findE_spec q h0 hlo hhi
  have h2 : (2:ℚ) ≠ 0 := two_ne_zero
  unfold f32Round
  rw [if_neg (not_le.mpr h0)]
  have hEq1 : (2:ℚ) ^ (23 - findE q) * 2 ^ (findE q - 23) = 1 := by
    rw [← zpow_add₀ h2]
    norm_num
  have hpE : (0:ℚ) < 2 ^ (findE q - 23) := by positivity
  have hs : q * 2 ^ (23 - findE q) * 2 ^ (findE q - 23) = q := by
    rw [mul_assoc, hEq1, mul_one]
  have hhalf : (1/2 : ℚ) * 2 ^ (findE q - 23) = 2 ^ (findE q - 24) := by
    have hsplit : (2:ℚ) ^ (findE q - 23) = 2 ^ (findE q - 24) * 2 := by
      rw [← zpow_add_one₀ h2]
      congr 1
      ring
    rw [hsplit]
    ring
  have h24 : (2:ℚ) ^ (findE q - 24) ≤ q / 2 ^ (24:ℕ) := by
    rw [div_eq_mul_inv, ← zpow_natCast (2:ℚ) 24, ← zpow_neg]
    have hsplit : (2:ℚ) ^ (findE q - 24) = 2 ^ findE q * 2 ^ (-24 : ℤ) := by
      rw [← zpow_add₀ h2, sub_eq_add_neg]
    rw [hsplit]
    exact mul_le_mul_of_nonneg_right hA (by positivity)
  have hrg := rne_ge (q * 2 ^ (23 - findE q))
  have hrl := rne_le (q * 2 ^ (23 - findE q))
  constructor
  · have := mul_le_mul_of_nonneg_right hrg hpE.le
    rw [sub_mul, hs, hhalf] at this
    linarith
  · have := mul_le_mul_of_nonneg_right hrl hpE.le
    rw [add_mul, hs, hhalf] at this
    linarith

theorem f32Round_natCast (n : ℕ) (h : n ≤ 2 ^ 24) : f32Round (n : ℚ) = n := by
  rcases Nat.eq_zero_or_pos n with h0 | h0
  · subst h0
    simp [f32Round]
  have hq0 : (0:ℚ) < n := by exact_mod_cast h0
  have hq1 : (1:ℚ) ≤ n := by exact_mod_cast h0
  have hlo : (2:ℚ) ^ (-62 : ℤ) < n := by
    have : (2:ℚ) ^ (-62 : ℤ) < 1 := by norm_num
    linarith
  have hhi : (n:ℚ) < (2:ℚ) ^ (62 : ℤ) := by
    have hc : (n:ℚ) ≤ ((2:ℚ) ^ (24:ℕ)) := by exact_mod_cast h
    have : ((2:ℚ) ^ (24:ℕ)) < (2:ℚ) ^ (62 : ℤ) := by norm_num
    linarith
  obtain ⟨hA, hB⟩ := findE_spec (n : ℚ) hq0 hlo hhi
  have hE0 : 0 ≤ findE (n : ℚ) := by
    by_contra hneg
    push_neg at hneg
    have hle : (2:ℚ) ^ (findE (n:ℚ) + 1) ≤ 2 ^ (0 : ℤ) :=
      zpow_le_zpow_right₀ one_lt_two.le (by omega)
    rw [zpow_zero] at hle
    linarith
  have hE24 : findE (n : ℚ) ≤ 24 := by
    have hc : (n:ℚ) ≤ ((2:ℚ) ^ (24:ℤ)) := by
      have : ((2:ℚ) ^ (24:ℤ)) = ((2:ℚ) ^ (24:ℕ)) := by norm_num
      rw [this]
      exact_mod_cast h
    exact (zpow_le_zpow_iff_right₀ one_lt_two).mp (le_trans hA hc)
  unfold f32Round
  rw [if_neg (not_le.mpr hq0)]
  rcases lt_or_ge (findE (n:ℚ)) 24 with hcase | hcase
  · -- the scaled significand is an integer, so rounding is exact
    have hnn : 0 ≤ 23 - findE (n:ℚ) := by omega
    have hsint : (n:ℚ) * 2 ^ (23 - findE (n:ℚ)) =
        ((n * 2 ^ (23 - findE (n:ℚ)).toNat : ℕ) : ℚ) := by
      push_cast
      congr 1
      rw [← zpow_natCast (2:ℚ) (23 - findE (n:ℚ)).toNat]
      congr 1
      omega
    rw [hsint]
    have : rne ((n * 2 ^ (23 - findE (n:ℚ)).toNat : ℕ) : ℚ) =
        (n * 2 ^ (23 - findE (n:ℚ)).toNat : ℕ) := by
      have := rne_intCast ((n * 2 ^ (23 - findE (n:ℚ)).toNat : ℕ) : ℤ)
      push_cast at this ⊢
      exact this
    rw [this]
    push_cast
    rw [mul_assoc]
    have : ((2:ℚ) ^ (23 - findE (n:ℚ)).toNat) * 2 ^ (findE (n:ℚ) - 23) = 1 := by
      rw [← zpow_natCast (2:ℚ) (23 - findE (n:ℚ)).toNat, ← zpow_add₀ two_ne_zero]
      have he : ((23 - findE (n:ℚ)).toNat : ℤ) + (findE (n:ℚ) - 23) = 0 := by omega
      rw [he, zpow_zero]
    rw [this, mul_one]
  · -- the extreme case n = 2^24
    have hE : findE (n:ℚ) = 24 := by omega
    have hn : n = 2 ^ 24 := by
      have h1 : ((2:ℚ) ^ (24:ℤ)) ≤ n := by rw [← hE]; exact hA
      have h2 : ((2:ℚ) ^ (24:ℤ)) = ((2 ^ 24 : ℕ) : ℚ) := by norm_num
      rw [h2] at h1
      have := (Nat.cast_le (α := ℚ)).mp h1
      omega
    subst hn
    rw [hE]
    have hs : ((2 ^ 24 : ℕ) : ℚ) * 2 ^ (23 - 24 : ℤ) = ((2 ^ 23 : ℤ) : ℚ) := by
      push_cast
      norm_num
    rw [hs, rne_intCast]
    push_cast
    norm_num

theorem f32Round_one : f32Round 1 = 1 := by
  have := f32Round_natCast 1 (by norm_num)
  simpa using this

theorem f32Round_eq (q : ℚ) (E m : ℤ) (hEl : -61 ≤ E) (hEr : E ≤ 61)
    (h0 : 0 < q) (hE1 : (2:ℚ) ^ E ≤ q) (hE2 : q < (2:ℚ) ^ (E + 1))
    (hm : rne (q * 2 ^ (23 - E)) = m) :
    f32Round q = (m : ℚ) * 2 ^ (E - 23) := by
  have hlo : (2:ℚ) ^ (-62 : ℤ) < q :=
    lt_of_lt_of_le (zpow_lt_zpow_right₀ one_lt_two (by omega)) hE1
  have hhi : q < (2:ℚ) ^ (62 : ℤ) :=
    lt_of_lt_of_le hE2 (zpow_le_zpow_right₀ one_lt_two.le (by omega))
  have hfe := findE_eq q E h0 hlo hhi hE1 hE2
  unfold f32Round
  rw [if_neg (not_le.mpr h0), hfe, hm]

/-! ### Properties of the embedded pixel blend -/

theorem covQ_zero : covQ 0 = 0 := by
  unfold covQ
  norm_num
  exact f32Round_of_nonpos 0 le_rfl

theorem covQ_255 : covQ 255 = 1 := by
  unfold covQ
  norm_num
  exact f32Round_one

theorem covQ_err (g : ℕ) (h1 : 1 ≤ g) (h2 : g ≤ 255) :
    (g:ℚ)/255 - ((g:ℚ)/255)/2^24 ≤ covQ g ∧ covQ g ≤ (g:ℚ)/255 + ((g:ℚ)/255)/2^24 := by
  have hg1 : (1:ℚ) ≤ g := by exact_mod_cast h1
  have hg2 : (g:ℚ) ≤ 255 := by exact_mod_cast h2
  have h0 : (0:ℚ) < (g:ℚ)/255 := by positivity
  have hlo : (2:ℚ) ^ (-62 : ℤ) < (g:ℚ)/255 := by
    have hc : (2:ℚ) ^ (-62 : ℤ) < 1/255 := by norm_num
    have : (1:ℚ)/255 ≤ (g:ℚ)/255 := by linarith
    linarith
  have hhi : (g:ℚ)/255 < (2:ℚ) ^ (62 : ℤ) := by
    have hc : (1:ℚ) < (2:ℚ) ^ (62 : ℤ) := by norm_num
    have : (g:ℚ)/255 ≤ 1 := by linarith
    linarith
  exact f32Round_err ((g:ℚ)/255) h0 hlo hhi

set_option maxHeartbeats 1600000 in
/-- The float32 product `existing * (1 - coverage)` lies within `1/4096`
of the exact real value `e * (1 - g/255)`, and within `1/4096` above `e`. -/
theorem blendCore (e g : ℕ) (he : e ≤ 255) (hg : g ≤ 255) :
    (e:ℚ) * (1 - (g:ℚ)/255) - 1/4096 ≤ f32Round ((e:ℚ) * f32Round (1 - covQ g)) ∧
      f32Round ((e:ℚ) * f32Round (1 - covQ g)) ≤ (e:ℚ) * (1 - (g:ℚ)/255) + 1/4096 ∧
      f32Round ((e:ℚ) * f32Round (1 - covQ g)) ≤ (e:ℚ) + 1/4096 := by
  have he' : (e:ℚ) ≤ 255 := by exact_mod_cast he
  have he0 : (0:ℚ) ≤ e := by positivity
  rcases Nat.eq_zero_or_pos g with hg0 | hgpos
  · -- g = 0: coverage 0, everything is exact
    subst hg0
    have ht : f32Round (1 - covQ 0) = 1 := by
      rw [covQ_zero, sub_zero, f32Round_one]
    have hr : f32Round ((e:ℚ) * f32Round (1 - covQ 0)) = e := by
      rw [ht, mul_one, f32Round_natCast e (by omega)]
    rw [hr]
    push_cast
    refine ⟨by linarith, by linarith, by linarith⟩
  rcases eq_or_lt_of_le hg with hg255 | hglt
  · -- g = 255: coverage 1, the product is exactly 0
    subst hg255
    have ht : f32Round (1 - covQ 255) = 0 := by
      rw [covQ_255, sub_self, f32Round_of_nonpos 0 le_rfl]
    have hr : f32Round ((e:ℚ) * f32Round (1 - covQ 255)) = 0 := by
      rw [ht, mul_zero, f32Round_of_nonpos 0 le_rfl]
    rw [hr]
    push_cast
    refine ⟨by linarith, by linarith, by linarith⟩
  -- 1 ≤ g ≤ 254
  have hg254 : g ≤ 254 := by omega
  have hq1 : (1:ℚ)/255 ≤ (g:ℚ)/255 := by
    have : (1:ℚ) ≤ g := by exact_mod_cast hgpos
    linarith
  have hq2 : (g:ℚ)/255 ≤ 254/255 := by
    have : (g:ℚ) ≤ 254 := by exact_mod_cast hg254
    linarith
  obtain ⟨hc1, hc2⟩ := covQ_err g hgpos (by omega)
  have hc0 : (0:ℚ) ≤ covQ g := f32Round_nonneg _
  have hconst : (1:ℚ)/255 - (254/255)/2^24 > 1/256 := by norm_num
  have h1c_lo : (1:ℚ)/256 < 1 - covQ g := by
    have hdiv : (g:ℚ)/255/2^24 ≤ (254/255)/2^24 := by linarith
    linarith
  have h1c_hi : 1 - covQ g ≤ 1 := by linarith
  have h1c_pos : (0:ℚ) < 1 - covQ g := by linarith [show (0:ℚ) < 1/256 by norm_num]
  have hclo : (2:ℚ) ^ (-62 : ℤ) < 1/256 := by norm_num
  have hchi : (1:ℚ) < (2:ℚ) ^ (62 : ℤ) := by norm_num
  obtain ⟨ht1, ht2⟩ := f32Round_err (1 - covQ g) h1c_pos
    (lt_trans hclo h1c_lo) (lt_of_le_of_lt h1c_hi hchi)
  have hdivq : (g:ℚ)/255/2^24 ≤ 1/2^24 := by
    have : (g:ℚ)/255 ≤ 1 := by linarith
    linarith
  have hdiv1c : (1 - covQ g)/2^24 ≤ 1/2^24 := by linarith
  have htu1 : (1 - (g:ℚ)/255) - 1/2^23 ≤ f32Round (1 - covQ g) := by
    have : 1 - covQ g ≥ (1 - (g:ℚ)/255) - (g:ℚ)/255/2^24 := by linarith
    have hx : ((1:ℚ)/2^24) + 1/2^24 = 1/2^23 := by norm_num
    linarith
  have htu2 : f32Round (1 - covQ g) ≤ (1 - (g:ℚ)/255) + 1/2^23 := by
    have : 1 - covQ g ≤ (1 - (g:ℚ)/255) + (g:ℚ)/255/2^24 := by linarith
    have hx : ((1:ℚ)/2^24) + 1/2^24 = 1/2^23 := by norm_num
    linarith
  rcases Nat.eq_zero_or_pos e with he0' | hepos
  · -- e = 0: the product is exactly 0
    subst he0'
    have hr : f32Round (((0:ℕ):ℚ) * f32Round (1 - covQ g)) = 0 := by
      rw [Nat.cast_zero, zero_mul, f32Round_of_nonpos 0 le_rfl]
    rw [hr]
    push_cast
    have hgn : (0:ℚ) ≤ (g:ℚ)/255 := by linarith
    refine ⟨by linarith, by linarith, by linarith⟩
  have he1 : (1:ℚ) ≤ e := by exact_mod_cast hepos
  have hu_lo : (1:ℚ)/255 ≤ 1 - (g:ℚ)/255 := by linarith
  have hu_hi : 1 - (g:ℚ)/255 ≤ 1 := by linarith
  have hconst2 : (1:ℚ)/255 - 1/2^23 > 1/512 := by norm_num
  have ht_pos : (1:ℚ)/512 < f32Round (1 - covQ g) := by linarith
  have ht_hi : f32Round (1 - covQ g) ≤ 1 + 1/2^23 := by linarith
  have hetpos : (0:ℚ) < (e:ℚ) * f32Round (1 - covQ g) := by
    apply mul_pos (by linarith)
    linarith [show (0:ℚ) < 1/512 by norm_num]
  have het_ge_t : f32Round (1 - covQ g) ≤ (e:ℚ) * f32Round (1 - covQ g) := by
    have h := mul_le_mul_of_nonneg_right he1 (f32Round_nonneg (1 - covQ g))
    rwa [one_mul] at h
  have het_hi : (e:ℚ) * f32Round (1 - covQ g) ≤ 256 := by
    have h1 := mul_le_mul he' ht_hi (f32Round_nonneg (1 - covQ g))
      (by norm_num : (0:ℚ) ≤ 255)
    have h2 : (255:ℚ) * (1 + 1/2^23) ≤ 256 := by norm_num
    linarith
  have hxlo : (2:ℚ) ^ (-62 : ℤ) < 1/512 := by norm_num
  have hxhi : (256:ℚ) < (2:ℚ) ^ (62 : ℤ) := by norm_num
  have hxlo2 : (2:ℚ) ^ (-62 : ℤ) < (e:ℚ) * f32Round (1 - covQ g) :=
    lt_trans hxlo (lt_of_lt_of_le ht_pos het_ge_t)
  have hxhi2 : (e:ℚ) * f32Round (1 - covQ g) < (2:ℚ) ^ (62 : ℤ) :=
    lt_of_le_of_lt het_hi hxhi
  obtain ⟨hr1, hr2⟩ := f32Round_err ((e:ℚ) * f32Round (1 - covQ g)) hetpos
    hxlo2 hxhi2
  have het_err : ((e:ℚ) * f32Round (1 - covQ g))/2^24 ≤ 256/2^24 := by linarith
  have het_err0 : (0:ℚ) ≤ ((e:ℚ) * f32Round (1 - covQ g))/2^24 := by positivity
  -- |e*t - e*u| ≤ 255/2^23
  have hetu1 : (e:ℚ) * f32Round (1 - covQ g) ≤ (e:ℚ) * (1 - (g:ℚ)/255) + 255/2^23 := by
    have h1 : (e:ℚ) * f32Round (1 - covQ g) ≤ (e:ℚ) * ((1 - (g:ℚ)/255) + 1/2^23) :=
      mul_le_mul_of_nonneg_left htu2 he0
    have h2 : (e:ℚ) * ((1 - (g:ℚ)/255) + 1/2^23) =
        (e:ℚ) * (1 - (g:ℚ)/255) + (e:ℚ) * (1/2^23) := by ring
    have h3 : (e:ℚ) * (1/2^23) ≤ 255 * (1/2^23) := by
      apply mul_le_mul_of_nonneg_right he' (by norm_num)
    have h4 : (255:ℚ) * (1/2^23) = 255/2^23 := by norm_num
    linarith
  have hetu2 : (e:ℚ) * (1 - (g:ℚ)/255) - 255/2^23 ≤ (e:ℚ) * f32Round (1 - covQ g) := by
    have h1 : (e:ℚ) * ((1 - (g:ℚ)/255) - 1/2^23) ≤ (e:ℚ) * f32Round (1 - covQ g) :=
      mul_le_mul_of_nonneg_left (by linarith) he0
    have h2 : (e:ℚ) * ((1 - (g:ℚ)/255) - 1/2^23) =
        (e:ℚ) * (1 - (g:ℚ)/255) - (e:ℚ) * (1/2^23) := by ring
    have h3 : (e:ℚ) * (1/2^23) ≤ 255 * (1/2^23) := by
      apply mul_le_mul_of_nonneg_right he' (by norm_num)
    have h4 : (255:ℚ) * (1/2^23) = 255/2^23 := by norm_num
    linarith
  have hsum : (255:ℚ)/2^23 + 256/2^24 ≤ 1/4096 := by norm_num
  have heu_le : (e:ℚ) * (1 - (g:ℚ)/255) ≤ e := mul_le_of_le_one_right he0 hu_hi
  refine ⟨by linarith, by linarith, by linarith⟩

/-- The blended pixel: equality with the floor of the float32 result,
two-sided closeness to the exact blend, and monotonicity (the sample can
only darken). -/
theorem blendPix_bounds (e g : ℕ) (he : e ≤ 255) (hg : g ≤ 255) :
    ((blendPix e g : ℚ) ≤ (e:ℚ) * (1 - (g:ℚ)/255) + 1/4096) ∧
      ((e:ℚ) * (1 - (g:ℚ)/255) - 1 - 1/4096 < (blendPix e g : ℚ)) ∧
      blendPix e g ≤ e := by
  obtain ⟨hb1, hb2, hb3⟩ := blendCore e g he hg
  have hr0 : 0 ≤ f32Round ((e:ℚ) * f32Round (1 - covQ g)) := f32Round_nonneg _
  have hfl0 : (0:ℤ) ≤ ⌊f32Round ((e:ℚ) * f32Round (1 - covQ g))⌋ := by
    rw [Int.le_floor]
    exact_mod_cast hr0
  have hcast : ((blendPix e g : ℕ) : ℚ) =
      ((⌊f32Round ((e:ℚ) * f32Round (1 - covQ g))⌋ : ℤ) : ℚ) := by
    unfold blendPix
    exact_mod_cast congrArg (fun z : ℤ => (z : ℚ)) (Int.toNat_of_nonneg hfl0)
  have hfle := Int.floor_le (f32Round ((e:ℚ) * f32Round (1 - covQ g)))
  have hflt := Int.lt_floor_add_one (f32Round ((e:ℚ) * f32Round (1 - covQ g)))
  refine ⟨by rw [hcast]; linarith, by rw [hcast]; linarith, ?_⟩
  have hlt : ((blendPix e g : ℕ) : ℚ) < (e:ℚ) + 1 := by
    rw [hcast]
    have : (1:ℚ)/4096 < 1 := by norm_num
    linarith
  have : blendPix e g < e + 1 := by exact_mod_cast hlt
  omega

/-- Blending with zero coverage leaves the sample unchanged. -/
theorem blendPix_zero (e : ℕ) (he : e ≤ 255) : blendPix e 0 = e := by
  unfold blendPix
  rw [covQ_zero]
  norm_num [f32Round_one]
  rw [f32Round_natCast e (by omega)]
  rw [Int.floor_natCast]
  exact Int.toNat_natCast e

/-! ### Concrete float32 evaluations (coverage 85/255 on sample 3) -/

theorem covQ_85_eq : covQ 85 = 11184811 * (2:ℚ) ^ (-25 : ℤ) := by
  unfold covQ
  have hq : ((85:ℕ):ℚ)/255 = 1/3 := by norm_num
  rw [hq]
  have hx : (1/3 : ℚ) * 2 ^ (23 - (-2:ℤ)) = 33554432/3 := by norm_num
  have hm : rne ((1/3 : ℚ) * 2 ^ (23 - (-2:ℤ))) = 11184811 := by
    rw [hx]
    rw [rne_eq_high (33554432/3 : ℚ) 11184810 (by norm_num) (by norm_num)]
    norm_num
  have h := f32Round_eq (1/3) (-2) 11184811 (by norm_num) (by norm_num)
    (by norm_num) (by norm_num) (by norm_num) hm
  rw [h]
  norm_num

theorem f32_t85 : f32Round (1 - covQ 85) = 11184810 * (2:ℚ) ^ (-24 : ℤ) := by
  rw [covQ_85_eq]
  have hval : 1 - (11184811:ℚ) * (2:ℚ) ^ (-25 : ℤ) = 22369621/33554432 := by norm_num
  rw [hval]
  have hx : (22369621/33554432 : ℚ) * 2 ^ (23 - (-1:ℤ)) = 22369621/2 := by norm_num
  have hm : rne ((22369621/33554432 : ℚ) * 2 ^ (23 - (-1:ℤ))) = 11184810 := by
    rw [hx]
    exact rne_eq_tie _ 11184810 (by norm_num) (by norm_num)
  have h := f32Round_eq (22369621/33554432) (-1) 11184810 (by norm_num) (by norm_num)
    (by norm_num) (by norm_num) (by norm_num) hm
  rw [h]
  norm_num

theorem blendPix_3_85 : blendPix 3 85 = 1 := by
  unfold blendPix
  rw [f32_t85]
  have hval : ((3:ℕ):ℚ) * (11184810 * (2:ℚ) ^ (-24 : ℤ)) = 16777215/8388608 := by
    norm_num
  rw [hval]
  have hx : (16777215/8388608 : ℚ) * 2 ^ (23 - (0:ℤ)) = ((16777215:ℤ):ℚ) := by
    norm_num
  have hm : rne ((16777215/8388608 : ℚ) * 2 ^ (23 - (0:ℤ))) = 16777215 := by
    rw [hx, rne_intCast]
  have h := f32Round_eq (16777215/8388608) 0 16777215 (by norm_num) (by norm_num)
    (by norm_num) (by norm_num) (by norm_num) hm
  rw [h]
  have hv2 : ((16777215:ℤ):ℚ) * 2 ^ ((0:ℤ) - 23) = 16777215/8388608 := by
    push_cast
    norm_num
  rw [hv2]
  have hfl : ⌊(16777215/8388608 : ℚ)⌋ = 1 := by
    rw [Int.floor_eq_iff] <;> norm_num
  rw [hfl]
  rfl

/-! ### Structural properties of `_composite_glyph` -/

theorem gsample_le (g : GlyphBitmap) (r c : ℕ) : gsample g r c ≤ 255 := by
  unfold gsample List.getD
  cases hg : g.buffer.get? (r * g.width + c) with
  | none => simp
  | some v =>
      simp only [hg, Option.getD_some]
      exact g.buffer_byte v (List.get?_mem hg)

theorem regionAllZero_eval (g : GlyphBitmap) (x y x1 y1 x2 y2 : ℤ)
    (h : regionAllZero g x y x1 y1 x2 y2 = true) (r c : ℕ)
    (hy1 : y1 ≤ (r:ℤ)) (hy2 : (r:ℤ) < y2) (hx1 : x1 ≤ (c:ℤ)) (hx2 : (c:ℤ) < x2)
    (hyy : y ≤ y1) (hxx : x ≤ x1) :
    gsample g ((r:ℤ) - y).toNat ((c:ℤ) - x).toNat = 0 := by
  unfold regionAllZero at h
  rw [List.all_eq_true] at h
  have hi := h (((r:ℤ) - y1).toNat) (List.mem_range.mpr (by omega))
  rw [List.all_eq_true] at hi
  have hj := hi (((c:ℤ) - x1).toNat) (List.mem_range.mpr (by omega))
  have heq1 : (y1 - y).toNat + ((r:ℤ) - y1).toNat = ((r:ℤ) - y).toNat := by omega
  have heq2 : (x1 - x).toNat + ((c:ℤ) - x1).toNat = ((c:ℤ) - x).toNat := by omega
  rw [heq1, heq2] at hj
  simpa using hj

theorem composite_glyph_dims (img : Canvas) (glyph : GlyphBitmap) (x y : ℤ) :
    (composite_glyph img glyph x y).height = img.height ∧
      (composite_glyph img glyph x y).width = img.width := by
  unfold composite_glyph
  split_ifs <;> exact ⟨rfl, rfl⟩

theorem composite_glyph_empty (img : Canvas) (glyph : GlyphBitmap) (x y : ℤ)
    (h : min (img.width : ℤ) (x + glyph.width) ≤ max 0 x ∨
      min (img.height : ℤ) (y + glyph.rows) ≤ max 0 y) :
    composite_glyph img glyph x y = img := by
  unfold composite_glyph
  rw [if_pos h]

theorem composite_glyph_outside (img : Canvas) (glyph : GlyphBitmap) (x y : ℤ)
    (r c : ℕ)
    (h : ¬(max 0 y ≤ (r : ℤ) ∧ (r : ℤ) < min (img.height : ℤ) (y + glyph.rows) ∧
      max 0 x ≤ (c : ℤ) ∧ (c : ℤ) < min (img.width : ℤ) (x + glyph.width))) :
    (composite_glyph img glyph x y).pix r c = img.pix r c := by
  unfold composite_glyph
  split_ifs with h1 h2
  · rfl
  · rfl
  · simp only [if_neg h]

theorem composite_glyph_inside (img : Canvas) (glyph : GlyphBitmap) (x y : ℤ)
    (r c : ℕ) (himg : img.pix r c ≤ 255)
    (h : max 0 y ≤ (r : ℤ) ∧ (r : ℤ) < min (img.height : ℤ) (y + glyph.rows) ∧
      max 0 x ≤ (c : ℤ) ∧ (c : ℤ) < min (img.width : ℤ) (x + glyph.width)) :
    (composite_glyph img glyph x y).pix r c =
      blendPix (img.pix r c) (gsample glyph ((r : ℤ) - y).toNat ((c : ℤ) - x).toNat) := by
  obtain ⟨hy1, hy2, hx1, hx2⟩ := h
  unfold composite_glyph
  split_ifs with h1 h2
  · -- empty intersection contradicts the inside bounds
    exfalso
    omega
  · -- all-zero region: unchanged, and the blend with coverage 0 is the identity
    rw [regionAllZero_eval glyph x y _ _ _ _ h2 r c hy1 hy2 hx1 hx2
      (le_max_right 0 y) (le_max_right 0 x)]
    exact (blendPix_zero _ himg).symm
  · simp only [if_pos (And.intro hy1 (And.intro hy2 (And.intro hx1 hx2)))]

theorem composite_glyph_pix_le (img : Canvas) (glyph : GlyphBitmap) (x y : ℤ)
    (r c : ℕ) (himg : img.pix r c ≤ 255) :
    (composite_glyph img glyph x y).pix r c ≤ img.pix r c := by
  by_cases h : max 0 y ≤ (r : ℤ) ∧ (r : ℤ) < min (img.height : ℤ) (y + glyph.rows) ∧
      max 0 x ≤ (c : ℤ) ∧ (c : ℤ) < min (img.width : ℤ) (x + glyph.width)
  · rw [composite_glyph_inside img glyph x y r c himg h]
    exact (blendPix_bounds (img.pix r c)
      (gsample glyph ((r : ℤ) - y).toNat ((c : ℤ) - x).toNat) himg
      (gsample_le _ _ _)).2.2
  · rw [composite_glyph_outside img glyph x y r c h]

/-! ### Properties of the `render_text` glyph loop -/

theorem renderStep_error_eq (ftFace : FTLoader) (pen_y scale tpx : ℚ)
    (acc : Canvas × ℚ) (g : ShapedGlyph) (m : String)
    (hf : ftFace g.codepoint = .error m) :
    renderStep ftFace pen_y scale tpx acc g =
      .error (.rendererInitError
        ("Failed to load glyph " ++ toString g.codepoint ++ ": " ++ m)) := by
  unfold renderStep
  rw [hf]

theorem renderStep_ok_empty (ftFace : FTLoader) (pen_y scale tpx : ℚ)
    (acc : Canvas × ℚ) (g : ShapedGlyph) (bmp : GlyphBitmap)
    (hf : ftFace g.codepoint = .ok bmp)
    (hbuf : bmp.buffer = [] ∨ bmp.width = 0 ∨ bmp.rows = 0) :
    renderStep ftFace pen_y scale tpx acc g =
      .ok (acc.1, acc.2 + g.x_advance * scale) := by
  unfold renderStep
  rw [hf]
  dsimp only
  rw [if_pos hbuf]

theorem renderStep_ok_draw (ftFace : FTLoader) (pen_y scale tpx : ℚ)
    (acc : Canvas × ℚ) (g : ShapedGlyph) (bmp : GlyphBitmap)
    (hf : ftFace g.codepoint = .ok bmp)
    (hbuf : ¬(bmp.buffer = [] ∨ bmp.width = 0 ∨ bmp.rows = 0)) :
    renderStep ftFace pen_y scale tpx acc g =
      .ok (composite_glyph acc.1 bmp
          (rne (acc.2 + g.x_offset * scale + bmp.bitmap_left))
          (rne (pen_y - bmp.bitmap_top - g.y_offset * scale)),
        if tpx ≠ 0 then acc.2 + g.x_advance * scale + tpx
        else acc.2 + g.x_advance * scale) := by
  unfold renderStep
  rw [hf]
  dsimp only
  rw [if_neg hbuf]

theorem renderStep_ok_pix (ftFace : FTLoader) (pen_y scale tpx : ℚ)
    (acc acc' : Canvas × ℚ) (g : ShapedGlyph)
    (hacc : ∀ r c, acc.1.pix r c ≤ 255)
    (h : renderStep ftFace pen_y scale tpx acc g = .ok acc') :
    ∀ r c, acc'.1.pix r c ≤ 255 := by
  cases hf : ftFace g.codepoint with
  | error m =>
      rw [renderStep_error_eq ftFace pen_y scale tpx acc g m hf] at h
      exact absurd h (by simp)
  | ok bmp =>
      by_cases hbuf : bmp.buffer = [] ∨ bmp.width = 0 ∨ bmp.rows = 0
      · rw [renderStep_ok_empty ftFace pen_y scale tpx acc g bmp hf hbuf] at h
        simp only [Except.ok.injEq] at h
        subst h
        exact hacc
      · rw [renderStep_ok_draw ftFace pen_y scale tpx acc g bmp hf hbuf] at h
        simp only [Except.ok.injEq] at h
        subst h
        intro r c
        exact le_trans (composite_glyph_pix_le acc.1 bmp _ _ r c (hacc r c)) (hacc r c)

theorem render_loop_aux_le (ftFace : FTLoader) (pen_y scale tpx : ℚ) :
    ∀ (glyphs : List ShapedGlyph) (acc : Canvas × ℚ),
      (∀ r c, acc.1.pix r c ≤ 255) →
      ∀ res, glyphs.foldlM (renderStep ftFace pen_y scale tpx) acc = .ok res →
      ∀ r c, res.1.pix r c ≤ 255 := by
  intro glyphs
  induction glyphs with
  | nil =>
      intro acc hacc res h r c
      simp only [List.foldlM_nil] at h
      have : acc = res := by simpa [pure, Except.pure] using h
      subst this
      exact hacc r c
  | cons g gs ih =>
      intro acc hacc res h
      rw [List.foldlM_cons] at h
      cases hstep : renderStep ftFace pen_y scale tpx acc g with
      | error e =>
          rw [hstep] at h
          exact absurd h (by simp [Bind.bind, Except.bind])
      | ok acc' =>
          rw [hstep] at h
          have h' : gs.foldlM (renderStep ftFace pen_y scale tpx) acc' = .ok res := by
            simpa [Bind.bind, Except.bind] using h
          exact ih acc' (renderStep_ok_pix ftFace pen_y scale tpx acc acc' g hacc hstep)
            res h'

theorem renderStep_ok_of_load (ftFace : FTLoader) (pen_y scale tpx : ℚ)
    (acc : Canvas × ℚ) (g : ShapedGlyph) (bmp : GlyphBitmap)
    (hf : ftFace g.codepoint = .ok bmp) :
    ∃ acc', renderStep ftFace pen_y scale tpx acc g = .ok acc' := by
  by_cases hbuf : bmp.buffer = [] ∨ bmp.width = 0 ∨ bmp.rows = 0
  · exact ⟨_, renderStep_ok_empty ftFace pen_y scale tpx acc g bmp hf hbuf⟩
  · exact ⟨_, renderStep_ok_draw ftFace pen_y scale tpx acc g bmp hf hbuf⟩

theorem render_loop_err (ftFace : FTLoader) (pen_y scale tpx : ℚ) :
    ∀ (glyphs : List ShapedGlyph) (acc : Canvas × ℚ),
      (∃ g ∈ glyphs, ∃ m, ftFace g.codepoint = .error m) →
      ∃ msg, glyphs.foldlM (renderStep ftFace pen_y scale tpx) acc =
        .error (.rendererInitError msg) := by
  intro glyphs
  induction glyphs with
  | nil =>
      intro acc hfail
      obtain ⟨g, hg, _⟩ := hfail
      exact absurd hg (by simp)
  | cons g gs ih =>
      intro acc hfail
      rw [List.foldlM_cons]
      cases hf : ftFace g.codepoint with
      | error e =>
          refine ⟨"Failed to load glyph " ++ toString g.codepoint ++ ": " ++ e, ?_⟩
          rw [renderStep_error_eq ftFace pen_y scale tpx acc g e hf]
          simp [Bind.bind, Except.bind]
      | ok bmp =>
          obtain ⟨acc', hacc'⟩ := renderStep_ok_of_load ftFace pen_y scale tpx acc g bmp hf
          have htail : ∃ g' ∈ gs, ∃ m, ftFace g'.codepoint = .error m := by
            obtain ⟨g', hg', m, hm⟩ := hfail
            rcases List.mem_cons.mp hg' with rfl | hmem
            · rw [hf] at hm
              exact absurd hm (by simp)
            · exact ⟨g', hmem, m, hm⟩
          obtain ⟨msg, hmsg⟩ := ih acc' htail
          refine ⟨msg, ?_⟩
          rw [hacc']
          simpa [Bind.bind, Except.bind] using hmsg

theorem toCLong_eq (x : ℤ) (h1 : -(2 ^ 63) ≤ x) (h2 : x < 2 ^ 63) :
    toCLong x = x := by
  unfold toCLong
  rw [Int.emod_eq_of_lt (by linarith) (by linarith)]
  ring

/-! ### The claims -/

/-- C1 counterexample: at destination (0, 0) on a 1×1 canvas whose pixel
is 3, compositing a glyph sample of 85 (coverage 1/3) yields pixel value
1, not the claimed `existing * (1 - coverage) = 3 * (2/3) = 2`: the
float32 product `3 * (1 - f32(85/255))` is `1.99999988…`, and the
`uint8` cast truncates it to 1. -/
theorem c1_counterexample :
    (composite_glyph canvas3 glyph85 0 0).pix 0 0 = 1 ∧
      ¬(((composite_glyph canvas3 glyph85 0 0).pix 0 0 : ℚ) =
        (canvas3.pix 0 0 : ℚ) * (1 - (gsample glyph85 0 0 : ℚ) / 255)) := by
  have h := composite_glyph_inside canvas3 glyph85 0 0 0 0 (by decide) (by decide)
  have hval : (composite_glyph canvas3 glyph85 0 0).pix 0 0 = 1 := by
    rw [h]
    exact blendPix_3_85
  refine ⟨hval, ?_⟩
  rw [hval]
  have h1 : (canvas3.pix 0 0 : ℚ) = 3 := by norm_num [canvas3]
  have h2 : (gsample glyph85 0 0 : ℚ) = 85 := by norm_num [gsample, glyph85]
  rw [h1, h2]
  norm_num

/-- C1 (amended): `_composite_glyph` clips the glyph rectangle against
the canvas; if the intersection is empty the canvas object is returned
unchanged; pixels outside the intersection are unchanged; and every
pixel inside the intersection becomes
`blendPix existing sample` — the `uint8` truncation of the float32
evaluation of `existing * (1 - coverage)` — which lies within `1/4096`
above and within `1 + 1/4096` below the exact value
`existing * (1 - sample/255)` (so it equals the exact value only up to
float32 rounding and the truncation to an integer). -/
theorem c1_amended (img : Canvas) (glyph : GlyphBitmap) (x y : ℤ)
    (himg : ∀ r c, img.pix r c ≤ 255) :
    ((min (img.width : ℤ) (x + glyph.width) ≤ max 0 x ∨
        min (img.height : ℤ) (y + glyph.rows) ≤ max 0 y) →
      composite_glyph img glyph x y = img) ∧
    (∀ r c : ℕ,
      ¬(max 0 y ≤ (r : ℤ) ∧ (r : ℤ) < min (img.height : ℤ) (y + glyph.rows) ∧
          max 0 x ≤ (c : ℤ) ∧ (c : ℤ) < min (img.width : ℤ) (x + glyph.width)) →
      (composite_glyph img glyph x y).pix r c = img.pix r c) ∧
    (∀ r c : ℕ,
      (max 0 y ≤ (r : ℤ) ∧ (r : ℤ) < min (img.height : ℤ) (y + glyph.rows) ∧
          max 0 x ≤ (c : ℤ) ∧ (c : ℤ) < min (img.width : ℤ) (x + glyph.width)) →
      (composite_glyph img glyph x y).pix r c =
          blendPix (img.pix r c)
            (gsample glyph ((r : ℤ) - y).toNat ((c : ℤ) - x).toNat) ∧
        (((composite_glyph img glyph x y).pix r c : ℚ) ≤
          (img.pix r c : ℚ) *
              (1 - (gsample glyph ((r : ℤ) - y).toNat ((c : ℤ) - x).toNat : ℚ) / 255)
            + 1/4096) ∧
        ((img.pix r c : ℚ) *
              (1 - (gsample glyph ((r : ℤ) - y).toNat ((c : ℤ) - x).toNat : ℚ) / 255)
            - 1 - 1/4096 <
          ((composite_glyph img glyph x y).pix r c : ℚ))) := by
  refine ⟨composite_glyph_empty img glyph x y,
    fun r c h => composite_glyph_outside img glyph x y r c h, ?_⟩
  intro r c h
  have heq := composite_glyph_inside img glyph x y r c (himg r c) h
  obtain ⟨hb1, hb2, _⟩ := blendPix_bounds (img.pix r c)
    (gsample glyph ((r : ℤ) - y).toNat ((c : ℤ) - x).toNat) (himg r c)
    (gsample_le _ _ _)
  refine ⟨heq, ?_, ?_⟩
  · rw [heq]; exact hb1
  · rw [heq]; exact hb2

/-- C1 witness: a concrete empty-intersection call is a no-op. -/
theorem c1_witness : composite_glyph canvas3 glyph85 5 5 = canvas3 :=
  (c1_amended canvas3 glyph85 5 5 (fun _ _ => (by norm_num : (3:ℕ) ≤ 255))).1 (by decide)

/-- C10: compositing never increases a canvas sample (byte-bounded
existing values only darken), and any canvas returned by `render_text`
is pointwise at most 255. -/
theorem c10_theorem :
    (∀ (img : Canvas) (glyph : GlyphBitmap) (x y : ℤ) (r c : ℕ),
        img.pix r c ≤ 255 →
        (composite_glyph img glyph x y).pix r c ≤ img.pix r c) ∧
    (∀ (st : HBState) (ftFace : FTLoader) (shaper : Shaper) (text : String)
        (cv : Canvas),
        render_text st ftFace shaper text = .ok cv → ∀ r c, cv.pix r c ≤ 255) := by
  constructor
  · exact fun img glyph x y r c h => composite_glyph_pix_le img glyph x y r c h
  · intro st ftFace shaper text cv h r c
    unfold render_text at h
    cases hs : shaper text st.features with
    | none =>
        rw [hs] at h
        simp only [Except.ok.injEq] at h
        subst h
        exact Nat.le.refl
    | some glyphs =>
        rw [hs] at h
        dsimp only at h
        by_cases ht : text = ""
        · rw [if_pos ht] at h
          simp only [Except.ok.injEq] at h
          subst h
          exact Nat.le.refl
        · rw [if_neg ht] at h
          unfold render_loop at h
          cases hr : List.foldlM
              (renderStep ftFace ((st.height : ℚ) * RENDER_BASELINE_FRAC)
                ((st.font_size : ℚ) / st.upem) (st.tracking / 1000 * st.font_size))
              (blankCanvas st.height st.width, 10) glyphs with
          | error e =>
              rw [hr] at h
              exact absurd h (by simp [Except.map])
          | ok pr =>
              rw [hr] at h
              have hcv : cv = pr.1 := by
                simp only [Except.map, Except.ok.injEq] at h
                exact h.symm
              subst hcv
              exact render_loop_aux_le ftFace _ _ _ glyphs
                (blankCanvas st.height st.width, 10) (fun _ _ => Nat.le.refl) pr hr r c

/-- C10 witness: a concrete composite does not brighten the pixel. -/
theorem c10_witness :
    (composite_glyph canvas3 glyph85 0 0).pix 0 0 ≤ canvas3.pix 0 0 :=
  c10_theorem.1 canvas3 glyph85 0 0 0 0 (by decide)

/-- C2: for every renderer state, rasterizer and shaper, `render_text`
on the empty string returns (without an exception) the blank
`height × width` canvas, every sample of which is 255. -/
theorem c2_theorem (st : HBState) (ftFace : FTLoader) (shaper : Shaper) :
    render_text st ftFace shaper "" = .ok (blankCanvas st.height st.width) ∧
      (blankCanvas st.height st.width).height = st.height ∧
      (blankCanvas st.height st.width).width = st.width ∧
      ∀ r c, (blankCanvas st.height st.width).pix r c = 255 := by
  refine ⟨?_, rfl, rfl, fun _ _ => rfl⟩
  unfold render_text
  cases hs : shaper "" st.features with
  | none => rfl
  | some glyphs =>
      dsimp only
      rw [if_pos rfl]

/-- C3: `render_text` mutates no renderer state, so two consecutive
calls with the same text and no intervening mutation hook return
identical buffers (the embedded method is a pure function of the state
and the text; the source method body assigns no attribute of `self`). -/
theorem c3_theorem (st : HBState) (ftFace : FTLoader) (shaper : Shaper)
    (text : String) :
    (render_textS st ftFace shaper text).2 = st ∧
      (render_textS ((render_textS st ftFace shaper text).2) ftFace shaper text).1 =
        (render_textS st ftFace shaper text).1 :=
  ⟨rfl, rfl⟩

/-- C5: evaluation of the glyph loop at the failing input.  With
`tracking = 1000` (1/1000 em), `font_size = 100`, `upem = 1000`
(`tracking_px = 100`, `scale = 1/10`) and a single shaped glyph of
`x_advance = 500` whose rasterized bitmap is empty (a space), the final
pen x is `10 + 500 * (1/10) = 60`: the `continue` branch for empty
bitmaps skips the tracking addition, so the pen does not reach the
claimed `10 + 500 * (1/10) + 100 = 160`. -/
theorem c5_theorem :
    (render_loop hbStateTrk ftLoaderEmpty [⟨7, 500, 0, 0, 0⟩]).map Prod.snd =
        .ok 60 ∧
      ((60 : ℚ) ≠
        10 + 500 * ((100 : ℚ) / 1000) + (1000 : ℚ) / 1000 * 100) := by
  constructor
  · unfold render_loop
    rw [List.foldlM_cons]
    rw [renderStep_ok_empty ftLoaderEmpty
      ((hbStateTrk.height : ℚ) * RENDER_BASELINE_FRAC)
      ((hbStateTrk.font_size : ℚ) / hbStateTrk.upem)
      (hbStateTrk.tracking / 1000 * hbStateTrk.font_size)
      (blankCanvas hbStateTrk.height hbStateTrk.width, 10)
      ⟨7, 500, 0, 0, 0⟩ glyphEmpty rfl (Or.inl rfl)]
    simp only [List.foldlM_nil, Bind.bind, Except.bind, pure, Except.pure,
      Except.map]
    simp only [Except.ok.injEq]
    norm_num [hbStateTrk]
  · norm_num

/-- C9 counterexample: when the rasterizer fails on a glyph, the call
raises `RendererInitError` — the shape-and-rasterize path reuses the
constructor-error class — and not a `GlyphLoadError`. -/
theorem c9_counterexample :
    isInitError (render_text hbStateTrk ftLoaderFail shaperOne "A") = true ∧
      isGlyphLoadError (render_text hbStateTrk ftLoaderFail shaperOne "A") =
        false := by
  have h : render_text hbStateTrk ftLoaderFail shaperOne "A" =
      .error (.rendererInitError
        ("Failed to load glyph " ++ toString (7:ℕ) ++ ": " ++ "boom")) := by
    unfold render_text shaperOne
    dsimp only
    rw [if_neg (by decide : ¬("A" = ""))]
    unfold render_loop
    rw [List.foldlM_cons]
    rw [renderStep_error_eq ftLoaderFail
      ((hbStateTrk.height : ℚ) * RENDER_BASELINE_FRAC)
      ((hbStateTrk.font_size : ℚ) / hbStateTrk.upem)
      (hbStateTrk.tracking / 1000 * hbStateTrk.font_size)
      (blankCanvas hbStateTrk.height hbStateTrk.width, 10)
      ⟨7, 500, 0, 0, 0⟩ "boom" rfl]
    simp [Bind.bind, Except.bind, Except.map]
  rw [h]
  exact ⟨rfl, rfl⟩

/-- C9 (amended): if the rasterizer fails to load any glyph of the
shaped sequence, `render_text` raises a `RendererInitError` (fatal to
the call: no buffer is returned and the glyph is not skipped); the
dedicated `GlyphLoadError` class of the spec's taxonomy does not exist
in the code. -/
theorem c9_amended (st : HBState) (ftFace : FTLoader) (shaper : Shaper)
    (text : String) (glyphs : List ShapedGlyph)
    (hsh : shaper text st.features = some glyphs) (htext : text ≠ "")
    (hfail : ∃ g ∈ glyphs, ∃ m, ftFace g.codepoint = .error m) :
    isInitError (render_text st ftFace shaper text) = true := by
  unfold render_text
  rw [hsh]
  dsimp only
  rw [if_neg htext]
  obtain ⟨msg, hmsg⟩ := render_loop_err ftFace
    ((st.height : ℚ) * RENDER_BASELINE_FRAC) ((st.font_size : ℚ) / st.upem)
    (st.tracking / 1000 * st.font_size) glyphs
    (blankCanvas st.height st.width, 10) hfail
  unfold render_loop
  rw [hmsg]
  rfl

/-- C9 witness: the amended statement at a concrete failing loader. -/
theorem c9_witness :
    isInitError (render_text hbStateTrk ftLoaderFail shaperOne "A") = true :=
  c9_amended hbStateTrk ftLoaderFail shaperOne "A" [⟨7, 500, 0, 0, 0⟩] rfl
    (by decide) ⟨⟨7, 500, 0, 0, 0⟩, List.mem_singleton_self _, "boom", rfl⟩

/-- C4 counterexample: when the HarfBuzz `set_variations` rebuild raises,
the hook still reassigns `self.instance_coords` before the guarded calls,
so the effective configuration is *not* left as it was before the call. -/
theorem c4_counterexample :
    (update_instance_coords_hb hbState400 (some [("wght", 700)]) []
        true true).instance_coords ≠ hbState400.instance_coords := by
  have hl : (update_instance_coords_hb hbState400 (some [("wght", 700)]) []
      true true).instance_coords = [("wght", 700)] := rfl
  have hr : hbState400.instance_coords = [("wght", 400)] := rfl
  rw [hl, hr]
  intro h
  have h2 : ((700 : ℚ) = 400) := by
    have := List.head_eq_of_cons_eq h
    exact congrArg Prod.snd this
  norm_num at h2

/-- C4 (amended): the update hooks of both backends are total (they
return a state, never an exception), and each dependent native handle is
left at its previous working value when its own rebuild step raises
(per-handle last-known-good, not atomic across handles); but the stored
`instance_coords` mapping is always reassigned to the new value first,
and the remaining configuration fields are untouched. -/
theorem c4_amended :
    (∀ (st : HBState) (newCoords : Option (List (String × ℚ)))
        (axes : List VarAxis) (sfail ffail : Bool),
      (update_instance_coords_hb st newCoords axes sfail ffail).instance_coords =
          newCoords.getD [] ∧
        (sfail = true →
          (update_instance_coords_hb st newCoords axes sfail ffail).hb_variations =
            st.hb_variations) ∧
        (sfail = false →
          (update_instance_coords_hb st newCoords axes sfail ffail).hb_variations =
            newCoords.getD []) ∧
        (ffail = true →
          (update_instance_coords_hb st newCoords axes sfail ffail).ft_design_coords =
            st.ft_design_coords) ∧
        (update_instance_coords_hb st newCoords axes sfail ffail).width = st.width ∧
        (update_instance_coords_hb st newCoords axes sfail ffail).height = st.height ∧
        (update_instance_coords_hb st newCoords axes sfail ffail).font_size =
          st.font_size ∧
        (update_instance_coords_hb st newCoords axes sfail ffail).tracking =
          st.tracking ∧
        (update_instance_coords_hb st newCoords axes sfail ffail).features =
          st.features ∧
        (update_instance_coords_hb st newCoords axes sfail ffail).upem = st.upem) ∧
    (∀ (st : CTState) (newCoords : Option (List (List ℕ × ℚ))) (cfail : Bool),
      (update_instance_coords_ct st newCoords cfail).instance_coords =
          newCoords.getD [] ∧
        (cfail = true →
          (update_instance_coords_ct st newCoords cfail).font = st.font) ∧
        (cfail = false →
          (update_instance_coords_ct st newCoords cfail).font =
            create_font_ct st.font_size (newCoords.getD []) st.features) ∧
        (update_instance_coords_ct st newCoords cfail).width = st.width ∧
        (update_instance_coords_ct st newCoords cfail).height = st.height ∧
        (update_instance_coords_ct st newCoords cfail).font_size = st.font_size ∧
        (update_instance_coords_ct st newCoords cfail).tracking = st.tracking ∧
        (update_instance_coords_ct st newCoords cfail).features = st.features) := by
  constructor
  · intro st newCoords axes sfail ffail
    unfold update_instance_coords_hb
    cases sfail <;> cases ffail <;>
      cases happ : apply_variations_to_freetype axes (newCoords.getD []) <;>
      simp [happ]
  · intro st newCoords cfail
    unfold update_instance_coords_ct
    cases cfail <;> simp

/-- C4 witness: on concrete failing rebuilds, both backends keep the
previous handle state. -/
theorem c4_witness :
    (update_instance_coords_hb hbState400 (some [("wght", 700)]) []
        true true).hb_variations = hbState400.hb_variations ∧
      (update_instance_coords_ct ctState400
        (some [([119, 103, 104, 116], 700)]) true).font = ctState400.font :=
  ⟨((c4_amended.1 hbState400 (some [("wght", 700)]) [] true true).2.1 rfl),
    ((c4_amended.2 ctState400 (some [([119, 103, 104, 116], 700)]) true).2.1 rfl)⟩

/-- C6 counterexample: with one axis `wght` (default 400) and the caller
coordinate `wght = 820.5`, the submitted design coordinate is
`int(820.5) << 16 = 820 * 65536 = 53739520`, not the claimed
`820.5 * 2^16 = 53771264`: `int()` truncates the coordinate before the
16.16 conversion. -/
theorem c6_counterexample :
    apply_variations_to_freetype [⟨"wght", 400⟩] [("wght", 1641/2)] =
        some [53739520] ∧
      ((53739520 : ℚ) ≠ (1641/2 : ℚ) * 2 ^ 16) := by
  constructor
  · unfold apply_variations_to_freetype lookupCoord
    simp only [List.isEmpty_cons, List.find?, List.map]
    have hfind : (("wght", (1641/2 : ℚ)).1 == "wght") = true := by decide
    rw [hfind]
    have hpy : pythonInt ((1641 : ℚ)/2) = 820 := by
      unfold pythonInt
      rw [if_neg (by norm_num)]
      norm_num
    norm_num [hpy]
    unfold toCLong
    decide
  · norm_num

/-- C6 (amended): for a nonempty axis list,
`_apply_variations_to_freetype` submits exactly one array with one entry
per axis in the font's own order, where each entry is the caller's
coordinate for the axis tag if present else the axis default, *truncated
toward zero to an integer by `int()`* and then shifted into 16.16
fixed-point (`<< 16`, wrapped to a C `long`); for coordinates of
magnitude at most `2^40` the wrap is the identity, so each entry is
`int(coord) * 2^16`. -/
theorem c6_amended (axes : List VarAxis) (coords : List (String × ℚ))
    (hne : axes ≠ []) :
    apply_variations_to_freetype axes coords =
        some (axes.map fun a =>
          toCLong (pythonInt (lookupCoord coords a.tag a.default) * 2 ^ 16)) ∧
      (axes.map fun a =>
          toCLong (pythonInt (lookupCoord coords a.tag a.default) * 2 ^ 16)).length =
        axes.length ∧
      ((∀ a ∈ axes, |pythonInt (lookupCoord coords a.tag a.default)| ≤ 2 ^ 40) →
        apply_variations_to_freetype axes coords =
          some (axes.map fun a =>
            pythonInt (lookupCoord coords a.tag a.default) * 2 ^ 16)) := by
  have hmain : apply_variations_to_freetype axes coords =
      some (axes.map fun a =>
        toCLong (pythonInt (lookupCoord coords a.tag a.default) * 2 ^ 16)) := by
    unfold apply_variations_to_freetype
    rw [if_neg (by simpa [List.isEmpty_iff] using hne)]
    rw [if_neg (by simpa [List.isEmpty_iff, List.map_eq_nil_iff] using hne)]
  refine ⟨hmain, List.length_map _ _, ?_⟩
  intro hsmall
  rw [hmain]
  congr 1
  apply List.map_congr_left
  intro a ha
  apply toCLong_eq
  · have := abs_le.mp (hsmall a ha)
    nlinarith [this.1]
  · have := abs_le.mp (hsmall a ha)
    nlinarith [this.2]

/-- C6 witness: the amended statement at one concrete axis. -/
theorem c6_witness :
    apply_variations_to_freetype [⟨"wght", 400⟩] [] =
      some ([⟨"wght", 400⟩].map fun a : VarAxis =>
        toCLong (pythonInt (lookupCoord [] a.tag a.default) * 2 ^ 16)) :=
  (c6_amended [⟨"wght", 400⟩] [] (by simp)).1

/-- C7: both backends use x-margin 10 and place the baseline at the same
visual position: for every canvas height that the baseline fraction 3/4
divides evenly (in particular every multiple of 4), the native backend's
bottom-measured text position `int(height * (1 - 0.75))` corresponds to
exactly `height * 0.75` pixels below the top row, which is the
shape-and-rasterize backend's top-measured `pen_y`; at the default
height 1200 both baselines are 900 pixels below the top
(`ct` text position y = 300 from the bottom). -/
theorem c7_theorem (h : ℕ) (hdiv : 4 ∣ h) :
    (hb_pen_start h).1 = ((ct_text_position h).1 : ℚ) ∧
      ((h : ℚ) - ((ct_text_position h).2 : ℚ) = (hb_pen_start h).2) ∧
      (h = 1200 → (hb_pen_start h).2 = 900 ∧ (ct_text_position h).2 = 300) := by
  obtain ⟨k, rfl⟩ := hdiv
  refine ⟨by norm_num [hb_pen_start, ct_text_position], ?_, ?_⟩
  · unfold ct_text_position hb_pen_start pythonInt RENDER_BASELINE_FRAC
    have hval : ((4 * k : ℕ) : ℚ) * (1 - 3/4) = ((k : ℕ) : ℚ) := by
      push_cast
      ring
    rw [hval]
    rw [if_neg (not_lt.mpr (by positivity)), Int.floor_natCast]
    push_cast
    ring
  · intro h1200
    have hk : k = 300 := by omega
    subst hk
    constructor
    · norm_num [hb_pen_start, RENDER_BASELINE_FRAC]
    · unfold ct_text_position pythonInt RENDER_BASELINE_FRAC
      norm_num

/-- C7 counterexample: at height 1201 the native backend's text position
is `int(1201 * 0.25) = 300`, not the claimed exact
`height * (1 - baselineRatio) = 300.25`: the code truncates the product
to an integer, so for heights not divisible by 4 the two backends'
baselines differ by a fraction of a pixel. -/
theorem c7_counterexample :
    ((ct_text_position 1201).2 : ℚ) ≠ (1201 : ℚ) * (1 - RENDER_BASELINE_FRAC) := by
  unfold ct_text_position pythonInt RENDER_BASELINE_FRAC
  norm_num

/-- C7 witness: the concrete default-height instance. -/
theorem c7_witness :
    (hb_pen_start 1200).2 = 900 ∧ (ct_text_position 1200).2 = 300 :=
  (c7_theorem 1200 (by decide)).2.2 rfl

/-- C8: every variation coordinate key passed to the native API is an
integer below `2^32`: the five known tags map through the static
`axis_ids` table to their fixed identifiers, and every other 4-character
ASCII tag is packed big-endian from its ASCII bytes
(`b0*2^24 + b1*2^16 + b2*2^8 + b3`). -/
theorem c8_theorem (tag : List ℕ) (hlen : tag.length = 4)
    (hascii : ∀ b ∈ tag, b < 128) :
    (axis_ids.find? (fun p => p.1 == tag) = none →
        variation_axis_key tag = packBE4 tag) ∧
      packBE4 tag = tag.getD 0 0 * 2 ^ 24 + tag.getD 1 0 * 2 ^ 16 +
        tag.getD 2 0 * 2 ^ 8 + tag.getD 3 0 ∧
      variation_axis_key tag < 2 ^ 32 ∧
      variation_axis_key [119, 103, 104, 116] = 2003265652 ∧
      variation_axis_key [119, 100, 116, 104] = 2003072104 ∧
      variation_axis_key [115, 108, 110, 116] = 1936486004 ∧
      variation_axis_key [105, 116, 97, 108] = 1769234796 ∧
      variation_axis_key [111, 112, 115, 122] = 1869640570 := by
  rcases tag with _ | ⟨a, _ | ⟨b, _ | ⟨c, _ | ⟨d, _ | ⟨e, tl⟩⟩⟩⟩⟩ <;>
    simp only [List.length] at hlen
  case nil => omega
  case cons.nil => omega
  case cons.cons.nil => omega
  case cons.cons.cons.nil => omega
  case cons.cons.cons.cons.cons => omega
  have ha : a < 128 := hascii a (by simp)
  have hb : b < 128 := hascii b (by simp)
  have hc : c < 128 := hascii c (by simp)
  have hd : d < 128 := hascii d (by simp)
  have hp : packBE4 [a, b, c, d] = (((0 * 256 + a) * 256 + b) * 256 + c) * 256 + d :=
    rfl
  refine ⟨?_, ?_, ?_, by decide, by decide, by decide, by decide, by decide⟩
  · intro hnone
    unfold variation_axis_key
    rw [hnone]
  · show packBE4 [a, b, c, d] =
      a * 2 ^ 24 + b * 2 ^ 16 + c * 2 ^ 8 + d
    rw [hp]
    ring
  · have h32 : (2:ℕ) ^ 32 = 4294967296 := by norm_num
    cases hfind : axis_ids.find? (fun p => p.1 == [a, b, c, d]) with
    | some p =>
        unfold variation_axis_key
        rw [hfind]
        have hmem := List.mem_of_find?_eq_some hfind
        fin_cases hmem <;> norm_num
    | none =>
        unfold variation_axis_key
        rw [hfind]
        dsimp only
        rw [hp, h32]
        omega

/-- C8 witness: the unknown ASCII tag "GRAD" is packed big-endian. -/
theorem c8_witness :
    variation_axis_key [71, 82, 65, 68] = packBE4 [71, 82, 65, 68] ∧
      variation_axis_key [71, 82, 65, 68] < 2 ^ 32 :=
  ⟨(c8_theorem [71, 82, 65, 68] (by decide) (by decide)).1 (by decide),
    (c8_theorem [71, 82, 65, 68] (by decide) (by decide)).2.2.1⟩

end Typf
